import Mathlib

/-!
Verification of the binary-passage retriever
(haystack/nodes/retriever/binary.py and
haystack/modeling/model/hash_layer.py).

The embedding models the retrieval pipeline of
BinaryPassageRetriever.retrieve together with the numpy bit-packing
primitives it calls (np.packbits / np.unpackbits, MSB-first), the
candidate index it searches, and the HashLayer subclass-registration
hook.  Dense embedding scalars are modelled as rationals; fallible
Python code is modelled with Except.
-/

set_option autoImplicit false

/-- One bit of the sign-thresholded code:
np.where(x > 0, 1, 0) applied elementwise (binary.py line 233).
A dimension equal to exactly 0 falls to the else branch, bit 0. -/
def binarize (x : List ℚ) : List Nat :=
  x.map (fun v => if 0 < v then 1 else 0)

/-- One packed byte from at most 8 bits, MSB first, zero-padded at the
least-significant end, nonzero entries counting as 1 — the per-byte step
of np.packbits with the default big bit order. -/
def bytePack (bits : List Nat) : Nat :=
  ((bits ++ List.replicate (8 - bits.length) 0).map
      (fun b => if b = 0 then 0 else 1)).foldl (fun a b => 2 * a + b) 0

/-- Fuel-indexed splitting of a bit list into groups of 8 (last group may
be shorter); the fuel is an upper bound on the length, making the
recursion structural so that concrete values compute. -/
def chunksOf8Go : Nat → List Nat → List (List Nat)
  | 0, _ => []
  | _ + 1, [] => []
  | n + 1, x :: xs => (x :: xs).take 8 :: chunksOf8Go n ((x :: xs).drop 8)

/-- Splitting a bit list into groups of 8; the last group may be shorter. -/
def chunksOf8 (l : List Nat) : List (List Nat) :=
  chunksOf8Go l.length l

/-- np.packbits with the default (big) bit order: groups of 8 bits become
one byte each, MSB first, the final partial group zero-padded. -/
def packbits (bits : List Nat) : List Nat :=
  (chunksOf8 bits).map bytePack

/-- The 8 bits of one byte, MSB first — the per-byte step of np.unpackbits. -/
def unpackByte (b : Nat) : List Nat :=
  [b / 128 % 2, b / 64 % 2, b / 32 % 2, b / 16 % 2,
   b / 8 % 2, b / 4 % 2, b / 2 % 2, b % 2]

/-- np.unpackbits with the default (big) bit order. -/
def unpackbits (bytes : List Nat) : List Nat :=
  bytes.flatMap unpackByte

/-- Number of set bits in one byte, used for Hamming distances. -/
def popcountByte (b : Nat) : Nat := (unpackByte b).sum

/-- Hamming distance between two packed codes of equal byte length. -/
def packedHamming (a b : List Nat) : Nat :=
  (List.zipWith (fun x y => popcountByte (Nat.xor x y)) a b).sum

/-- Insertion step of a deterministic sort: x is placed before the first
element y with le x y = true. -/
def insertLe {α : Type} (le : α → α → Bool) (x : α) : List α → List α
  | [] => [x]
  | y :: ys => if le x y then x :: y :: ys else y :: insertLe le x ys

/-- Deterministic insertion sort by the Boolean relation le. -/
def sortLe {α : Type} (le : α → α → Bool) : List α → List α
  | [] => []
  | x :: xs => insertLe le x (sortLe le xs)

/-- Modelled from the spec: the candidate index (a faiss binary index,
external to the repository) searched at binary.py line 236.  Spec section
4.4: search returns up to k entry ids ranked by ascending Hamming
distance between the query code and the stored code, ties broken by
ascending id.  Ids are the positions of the stored codes. -/
def hammingSearch (codes : List (List Nat)) (q : List Nat) (k : Nat) : List Nat :=
  ((sortLe (fun a b => decide (a.1 < b.1 ∨ (a.1 = b.1 ∧ a.2 ≤ b.2)))
      ((List.range codes.length).map (fun i => (packedHamming q (codes.getD i []), i)))).map
    Prod.snd).take k

/-- Dot product of two equally long vectors, the k-contraction of the
einsum at binary.py line 249. -/
def listDot (a b : List ℚ) : ℚ :=
  (List.zipWith (fun x y => x * y) a b).sum

/-- Indices of scores sorted by descending value, the model of
np.argsort(-scores) at binary.py line 250.  Ties keep the original
(shortlist-search) order in this model; the numpy default quicksort does
not promise that, which is recorded where it matters. -/
def argsortDesc (scores : List ℚ) : List Nat :=
  (sortLe (fun a b => decide (b.1 ≤ a.1))
      (scores.zip (List.range scores.length))).map Prod.snd

/-- Errors raised by the Python code paths modelled here. -/
inductive PyError where
  /-- ValueError from np.vstack applied to an empty list of arrays
  (binary.py lines 238-240 when the shortlist is empty). -/
  | vstackEmpty : PyError
  /-- ValueError from np.vstack applied to rows of unequal length. -/
  | vstackRagged : PyError
  /-- ValueError from np.reshape when the element counts disagree
  (binary.py lines 242-244). -/
  | reshapeMismatch : PyError
  /-- Reconstructing an id absent from the index (binary.py line 239). -/
  | reconstructNotFound : PyError
  /-- IndexError from list indexing past the end (binary.py line 251). -/
  | indexOutOfRange : PyError
deriving DecidableEq

/-- A stored document; only identity matters for the retrieval claims. -/
structure Document where
  docId : Nat
  content : String
deriving DecidableEq

/-- The slice of the external document store that retrieve touches:
all_documents, the default index name, and faiss_indexes mapping an
index name to the list of packed binary codes stored at ids 0, 1, .... -/
structure DocStore where
  allDocuments : List Document
  index : String
  faissIndexes : String → List (List Nat)

/-- The retriever state used by retrieve: the optional document store,
the configured top_k and candidates fields, and the query embedding
step.  Modelled from the spec: embed_one_query runs the dual-encoder
model (outside this repository); spec section 4.2 specifies it as pure
computation with no side effect, so it is a function from the query text
to the pair (dense query embedding, continuous binary query embedding). -/
structure Retriever where
  documentStore : Option DocStore
  topK : Nat
  candidates : Nat
  embed : String → List ℚ × List ℚ

/-- Clamp of the candidate count at binary.py lines 230-231:
if candidates exceeds the document count it is overwritten by it. -/
def clampCandidates (c n : Nat) : Nat :=
  if c > n then n else c

/-- One reconstructed row: the stored packed code unpacked to 0/1 bits
and cast to floats (np.unpackbits then astype(np.float32)). -/
def reconstructRow (c : List Nat) : List ℚ :=
  (unpackbits c).map (fun (b : Nat) => (b : ℚ))

/-- Stage 4 input: reconstruct each shortlisted id from the index and
unpack its code to bits (binary.py lines 238-240); a missing id fails. -/
def reconstructAll (codes : List (List Nat)) : List Nat → Except PyError (List (List ℚ))
  | [] => .ok []
  | i :: ids =>
    match codes.get? i with
    | none => .error .reconstructNotFound
    | some c =>
      match reconstructAll codes ids with
      | .error e => .error e
      | .ok rows => .ok (reconstructRow c :: rows)

/-- np.vstack of the unpacked rows followed by the reshape to
(1, n, query_dim) at binary.py lines 238-245: vstack fails on an empty
list or ragged rows; reshape fails unless the element counts agree. -/
def vstackReshape (rows : List (List ℚ)) (queryDim : Nat) :
    Except PyError (List (List ℚ)) :=
  match rows with
  | [] => .error .vstackEmpty
  | r :: rs =>
    if (r :: rs).all (fun row => row.length = r.length) then
      if (r :: rs).length * r.length = (r :: rs).length * queryDim then
        .ok (r :: rs)
      else .error .reshapeMismatch
    else .error .vstackRagged

/-- The map turning 0/1 rows into plus-minus-one rows
(binary.py line 247: passage_embeddings * 2 - 1). -/
def toPMRows (rows : List (List ℚ)) : List (List ℚ) :=
  rows.map (fun row => row.map (fun b => 2 * b - 1))

/-- Stage 4 scores: the einsum at binary.py line 249, one dot product of
each plus-minus-one row with the dense query embedding. -/
def scoreRows (pm : List (List ℚ)) (q : List ℚ) : List ℚ :=
  pm.map (fun row => listDot row q)

/-- Final document lookup at binary.py line 251:
all_documents[ids_arr[0][i]] for each sorted index i. -/
def getDocs (docs : List Document) (ids : List Nat) :
    List Nat → Except PyError (List Document)
  | [] => .ok []
  | i :: rest =>
    match ids.get? i with
    | none => .error .indexOutOfRange
    | some id =>
      match docs.get? id with
      | none => .error .indexOutOfRange
      | some d =>
        match getDocs docs ids rest with
        | .error e => .error e
        | .ok ds => .ok (d :: ds)

/-- Stages 2-5 of retrieve once the store is known to be present
(binary.py lines 228-251), with the clamped candidate count already
computed: pack the sign-thresholded query code, search the faiss index,
reconstruct and unpack the shortlist, re-rank by dot product with the
dense query embedding, take top_k, and map ids to documents. -/
def retrieveCore (store : DocStore) (emb : List ℚ × List ℚ)
    (cand top_k : Nat) (idxName : Option String) :
    Except PyError (List Document) :=
  let idx := idxName.getD store.index
  let query_embeddings := emb.1
  let bin_query := packbits (binarize emb.2)
  let codes := store.faissIndexes idx
  let ids := hammingSearch codes bin_query cand
  match reconstructAll codes ids with
  | .error e => .error e
  | .ok rows =>
    match vstackReshape rows query_embeddings.length with
    | .error e => .error e
    | .ok rows2 =>
      let scores := scoreRows (toPMRows rows2) query_embeddings
      let sorted_indices := (argsortDesc scores).take top_k
      getDocs store.allDocuments ids sorted_indices

/-- Filters argument of retrieve; the source accepts and ignores it. -/
abbrev Filters := List (String × List String)

/-- Headers argument of retrieve; the source accepts and ignores it. -/
abbrev Headers := List (String × String)

/-- What one call to retrieve produces: the returned value or the raised
error, the retriever as it is left after the call (retrieve mutates the
candidates field in place at binary.py line 231, also on error paths,
because the mutation precedes the raising statements), and the messages
written through logger.error. -/
structure RetrieveResult where
  result : Except PyError (List Document)
  state : Retriever
  errorLogs : List String

/-- BinaryPassageRetriever.retrieve (binary.py lines 203-256).
Resolves top_k from the field when absent, returns [] with a logged
error when the store is falsy, resolves the index name, embeds the
query, clamps and overwrites the candidates field, and runs the
search / re-rank / lookup pipeline. -/
def retrieve (r : Retriever) (query : String) (_filters : Option Filters)
    (topK? : Option Nat) (idxName : Option String) (_headers : Option Headers) :
    RetrieveResult :=
  let top_k := topK?.getD r.topK
  match r.documentStore with
  | none =>
    { result := .ok []
      state := r
      errorLogs := ["Cannot perform retrieve() since DensePassageRetriever initialized with document_store=None"] }
  | some store =>
    let c := clampCandidates r.candidates store.allDocuments.length
    { result := retrieveCore store (r.embed query) c top_k idxName
      state := { r with candidates := c }
      errorLogs := [] }

/-- A subclasses registry: class name to registered class name, the
model of the dict stored in a subclasses attribute. -/
abbrev SubclassDict := List (String × String)

/-- The value of the attribute named subclasses in the class body of
HashLayer (hash_layer.py): the class body defines only
the method named init-subclass (forward is commented out), so no such
attribute exists there. -/
def hashLayerSubclassesAttr : Option SubclassDict := none

/-- Python attribute lookup for the subclasses attribute along the
method resolution order: the first class that defines it wins. -/
def mroLookupSubclasses : List (Option SubclassDict) → Option SubclassDict
  | [] => none
  | some d :: _ => some d
  | none :: rest => mroLookupSubclasses rest

/-- Errors raised during class definition. -/
inductive PyClassError where
  | attributeError : String → PyClassError
deriving DecidableEq

/-- The body of HashLayer.__init_subclass__ (hash_layer.py lines 6-12),
which Python runs when a direct subclass is defined: it evaluates
cls.subclasses, an attribute lookup through the subclass, HashLayer,
and the external bases (torch nn.Module and object), and on success
stores the new class under its own name; when no class on that chain
defines the attribute, the lookup raises AttributeError at class
definition time. -/
def initSubclassHook (clsName : String) (own : Option SubclassDict)
    (externalBases : List (Option SubclassDict)) :
    Except PyClassError SubclassDict :=
  match mroLookupSubclasses (own :: hashLayerSubclassesAttr :: externalBases) with
  | none => .error (.attributeError "subclasses")
  | some d => .ok ((clsName, clsName) :: d.filter (fun p => p.1 ≠ clsName))

/-! Helper lemmas about the bit-packing primitives. -/

lemma map_indicator_eq (l : List Nat) (h : ∀ x ∈ l, x ≤ 1) :
    l.map (fun b => if b = 0 then 0 else 1) = l := by
  induction l with
  | nil => rfl
  | cons x xs ih =>
    have hx : x ≤ 1 := h x (by simp)
    have hxs : ∀ y ∈ xs, y ≤ 1 := fun y hy => h y (by simp [hy])
    simp only [List.map_cons, ih hxs, List.cons.injEq, and_true]
    split <;> omega

lemma bytePack_eq8 (a b c d e f g h : Nat)
    (ha : a ≤ 1) (hb : b ≤ 1) (hc : c ≤ 1) (hd : d ≤ 1)
    (he : e ≤ 1) (hf : f ≤ 1) (hg : g ≤ 1) (hh : h ≤ 1) :
    bytePack [a, b, c, d, e, f, g, h] =
      128 * a + 64 * b + 32 * c + 16 * d + 8 * e + 4 * f + 2 * g + h := by
  have hm : ∀ x ∈ [a, b, c, d, e, f, g, h], x ≤ 1 := by
    intro x hx
    simp only [List.mem_cons, List.not_mem_nil, or_false] at hx
    rcases hx with rfl | rfl | rfl | rfl | rfl | rfl | rfl | rfl <;> assumption
  unfold bytePack
  simp only [List.length_cons, List.length_nil]
  norm_num
  split_ifs <;> omega

lemma unpackByte_of_bits (a b c d e f g h : Nat)
    (ha : a ≤ 1) (hb : b ≤ 1) (hc : c ≤ 1) (hd : d ≤ 1)
    (he : e ≤ 1) (hf : f ≤ 1) (hg : g ≤ 1) (hh : h ≤ 1) :
    unpackByte (128 * a + 64 * b + 32 * c + 16 * d + 8 * e + 4 * f + 2 * g + h) =
      [a, b, c, d, e, f, g, h] := by
  simp only [unpackByte, List.cons.injEq, and_true]
  refine ⟨?_, ?_, ?_, ?_, ?_, ?_, ?_, ?_⟩ <;> omega

lemma unpackByte_bytePack_of_length8 (l : List Nat) (hl : l.length = 8)
    (he : ∀ x ∈ l, x ≤ 1) : unpackByte (bytePack l) = l := by
  match l, hl with
  | [a, b, c, d, e, f, g, h], _ =>
    simp only [List.mem_cons, List.not_mem_nil, or_false] at he
    have ha := he a (by tauto)
    have hb := he b (by tauto)
    have hc := he c (by tauto)
    have hd := he d (by tauto)
    have he' := he e (by tauto)
    have hf := he f (by tauto)
    have hg := he g (by tauto)
    have hh := he h (by tauto)
    rw [bytePack_eq8 a b c d e f g h ha hb hc hd he' hf hg hh,
        unpackByte_of_bits a b c d e f g h ha hb hc hd he' hf hg hh]

lemma unpackByte_bytePack_le8 (c : List Nat) (hl : c.length ≤ 8)
    (he : ∀ x ∈ c, x ≤ 1) :
    unpackByte (bytePack c) = c ++ List.replicate (8 - c.length) 0 := by
  have hlen : (c ++ List.replicate (8 - c.length) 0).length = 8 := by
    simp; omega
  have hmem : ∀ x ∈ c ++ List.replicate (8 - c.length) 0, x ≤ 1 := by
    intro x hx
    rcases List.mem_append.mp hx with h | h
    · exact he x h
    · have := List.eq_of_mem_replicate h; omega
  have hbp : bytePack c = bytePack (c ++ List.replicate (8 - c.length) 0) := by
    unfold bytePack
    rw [hlen]
    simp
  rw [hbp, unpackByte_bytePack_of_length8 _ hlen hmem]

lemma chunksOf8Go_fuel (n : Nat) : ∀ l : List Nat, l.length ≤ n →
    chunksOf8Go n l = chunksOf8 l := by
  induction n using Nat.strong_induction_on with
  | _ n ih =>
    intro l hl
    cases n with
    | zero =>
      have : l = [] := List.eq_nil_of_length_eq_zero (by omega)
      subst this; rfl
    | succ m =>
      cases l with
      | nil => rfl
      | cons x xs =>
        have hd : ((x :: xs).drop 8).length = (x :: xs).length - 8 :=
          List.length_drop 8 (x :: xs)
        have h₁ : ((x :: xs).drop 8).length ≤ m := by
          simp only [List.length_cons] at hl hd
          omega
        have h₂ : ((x :: xs).drop 8).length ≤ xs.length := by
          simp only [List.length_cons] at hd
          omega
        simp only [List.length_cons] at hl
        show (x :: xs).take 8 :: chunksOf8Go m ((x :: xs).drop 8) = chunksOf8 (x :: xs)
        rw [ih m (by omega) _ h₁]
        show _ = (x :: xs).take 8 :: chunksOf8Go xs.length ((x :: xs).drop 8)
        rw [ih xs.length (by omega) _ h₂]

lemma chunksOf8_nil : chunksOf8 [] = [] := rfl

lemma chunksOf8_cons (x : Nat) (xs : List Nat) :
    chunksOf8 (x :: xs) = (x :: xs).take 8 :: chunksOf8 ((x :: xs).drop 8) := by
  have hd : ((x :: xs).drop 8).length = (x :: xs).length - 8 :=
    List.length_drop 8 (x :: xs)
  show chunksOf8Go (xs.length + 1) (x :: xs) = _
  show (x :: xs).take 8 :: chunksOf8Go xs.length ((x :: xs).drop 8) = _
  rw [chunksOf8Go_fuel xs.length _ (by simp only [List.length_cons] at hd; omega)]

lemma chunksOf8_append8 (l₁ l₂ : List Nat) (h : l₁.length = 8) :
    chunksOf8 (l₁ ++ l₂) = l₁ :: chunksOf8 l₂ := by
  match l₁, h with
  | x :: xs, h =>
    rw [List.cons_append, chunksOf8_cons, ← List.cons_append,
        List.take_left' h, List.drop_left' h]

lemma unpackByte_le_one (b : Nat) : ∀ x ∈ unpackByte b, x ≤ 1 := by
  intro x hx
  simp only [unpackByte, List.mem_cons, List.not_mem_nil, or_false] at hx
  rcases hx with rfl | rfl | rfl | rfl | rfl | rfl | rfl | rfl <;> omega

lemma unpackbits_le_one (bytes : List Nat) : ∀ x ∈ unpackbits bytes, x ≤ 1 := by
  intro x hx
  simp only [unpackbits, List.mem_flatMap] at hx
  obtain ⟨b, _, hb⟩ := hx
  exact unpackByte_le_one b x hb

lemma unpackbits_packbits_bound (n : Nat) : ∀ bits : List Nat, bits.length ≤ n →
    (∀ x ∈ bits, x ≤ 1) →
    unpackbits (packbits bits) =
      bits ++ List.replicate ((8 - bits.length % 8) % 8) 0 := by
  induction n with
  | zero =>
    intro bits hl _
    have : bits = [] := List.eq_nil_of_length_eq_zero (by omega)
    subst this; rfl
  | succ n ih =>
    intro bits hl hb
    cases bits with
    | nil => rfl
    | cons x xs =>
      by_cases hle : (x :: xs).length ≤ 8
      · have hdrop : (x :: xs).drop 8 = [] := List.drop_eq_nil_of_le hle
        have htake : (x :: xs).take 8 = x :: xs := List.take_of_length_le hle
        rw [packbits, chunksOf8_cons, hdrop, chunksOf8_nil, htake]
        simp only [List.map_cons, List.map_nil, unpackbits, List.flatMap_cons,
          List.flatMap_nil, List.append_nil]
        rw [show unpackByte (bytePack (x :: xs)) =
              (x :: xs) ++ List.replicate (8 - (x :: xs).length) 0 from
            unpackByte_bytePack_le8 _ hle hb]
        have hcount : 8 - (x :: xs).length = (8 - (x :: xs).length % 8) % 8 := by
          simp only [List.length_cons] at *
          omega
        rw [hcount]
      · have h8 : ((x :: xs).take 8).length = 8 := by
          simp only [List.length_take, List.length_cons] at *
          omega
        have htmem : ∀ y ∈ (x :: xs).take 8, y ≤ 1 :=
          fun y hy => hb y (List.mem_of_mem_take hy)
        have hdmem : ∀ y ∈ (x :: xs).drop 8, y ≤ 1 :=
          fun y hy => hb y (List.drop_subset 8 _ hy)
        have hdlen : ((x :: xs).drop 8).length ≤ n := by
          simp only [List.length_drop, List.length_cons] at *
          omega
        rw [packbits, chunksOf8_cons]
        simp only [List.map_cons, unpackbits, List.flatMap_cons]
        rw [show (List.map bytePack (chunksOf8 ((x :: xs).drop 8))).flatMap unpackByte
              = unpackbits (packbits ((x :: xs).drop 8)) from rfl]
        rw [ih _ hdlen hdmem]
        rw [show unpackByte (bytePack ((x :: xs).take 8)) = (x :: xs).take 8 from by
          rw [unpackByte_bytePack_le8 _ (by omega) htmem, h8]
          simp]
        rw [← List.append_assoc, List.take_append_drop]
        have hcount : (8 - ((x :: xs).drop 8).length % 8) % 8 =
            (8 - (x :: xs).length % 8) % 8 := by
          simp only [List.length_drop, List.length_cons] at *
          omega
        rw [hcount]

lemma unpackbits_packbits (bits : List Nat) (h : ∀ x ∈ bits, x ≤ 1) :
    unpackbits (packbits bits) =
      bits ++ List.replicate ((8 - bits.length % 8) % 8) 0 :=
  unpackbits_packbits_bound bits.length bits le_rfl h

lemma bytePack_unpackByte (b : Nat) (hb : b < 256) :
    bytePack (unpackByte b) = b := by
  show bytePack [b / 128 % 2, b / 64 % 2, b / 32 % 2, b / 16 % 2,
    b / 8 % 2, b / 4 % 2, b / 2 % 2, b % 2] = b
  rw [bytePack_eq8] <;> omega

lemma packbits_unpackbits (bytes : List Nat) (h : ∀ b ∈ bytes, b < 256) :
    packbits (unpackbits bytes) = bytes := by
  induction bytes with
  | nil => rfl
  | cons b rest ih =>
    have hlen : (unpackByte b).length = 8 := rfl
    rw [unpackbits, List.flatMap_cons, packbits, chunksOf8_append8 _ _ hlen]
    simp only [List.map_cons]
    rw [bytePack_unpackByte b (h b (by simp))]
    rw [show List.map bytePack (chunksOf8 (rest.flatMap unpackByte))
          = packbits (unpackbits rest) from rfl]
    rw [ih (fun y hy => h y (by simp [hy]))]

lemma binarize_pm_bits (bits : List Nat) (h : ∀ x ∈ bits, x ≤ 1) :
    binarize (bits.map (fun (b : Nat) => 2 * (b : ℚ) - 1)) = bits := by
  induction bits with
  | nil => rfl
  | cons x xs ih =>
    have hx : x ≤ 1 := h x (by simp)
    have hxs := ih (fun y hy => h y (by simp [hy]))
    simp only [List.map_cons, binarize] at hxs ⊢
    rw [hxs]
    interval_cases x <;> norm_num

lemma pm_binarize (code : List ℚ) (h : ∀ v ∈ code, v = 1 ∨ v = -1) :
    (binarize code).map (fun (b : Nat) => 2 * (b : ℚ) - 1) = code := by
  induction code with
  | nil => rfl
  | cons v vs ih =>
    have hvs := ih (fun y hy => h y (by simp [hy]))
    simp only [binarize, List.map_cons] at hvs ⊢
    rw [hvs]
    rcases h v (by simp) with rfl | rfl <;> norm_num

lemma binarize_le_one (x : List ℚ) : ∀ b ∈ binarize x, b ≤ 1 := by
  intro b hb
  simp only [binarize, List.mem_map] at hb
  obtain ⟨v, _, hv⟩ := hb
  split at hv <;> omega

lemma binarize_length (x : List ℚ) : (binarize x).length = x.length := by
  simp [binarize]

/-- Claim C3 counterexample: for the 1-dimensional plus-minus-one code
[1], packing (np.packbits of the sign bits) and unpacking back to a
plus-minus-one vector (np.unpackbits then *2-1) yields the 8-dimensional
vector [1,-1,-1,-1,-1,-1,-1,-1], not the original code, because packing
pads dimension counts up to a whole byte. -/
theorem C3_roundtrip_counterexample :
    (unpackbits (packbits (binarize [(1 : ℚ)]))).map (fun (b : Nat) => 2 * (b : ℚ) - 1)
      ≠ [(1 : ℚ)] := by
  have h1 : binarize [(1 : ℚ)] = [1] := by norm_num [binarize]
  have h2 : unpackbits (packbits [1]) = [1, 0, 0, 0, 0, 0, 0, 0] := by decide
  rw [h1, h2]
  intro h
  have hlen := congrArg List.length h
  simp at hlen

/-- Claim C3 (amended): the packed form (ceil(D/8) bytes, MSB-first) and
the unpacked plus-minus-one form interconvert losslessly in the
packed-to-unpacked-to-packed direction for every valid byte sequence,
and in the unpacked-to-packed-to-unpacked direction exactly when the
dimension D is a multiple of 8 (so for D in {8, 768} of the claim, but
not for D in {1, 9}, where unpacking returns 8*ceil(D/8) dimensions). -/
theorem C3_roundtrip_amended (bytes : List Nat) (hbytes : ∀ b ∈ bytes, b < 256)
    (code : List ℚ) (hpm : ∀ v ∈ code, v = 1 ∨ v = -1)
    (h8 : code.length % 8 = 0) :
    packbits (binarize ((unpackbits bytes).map (fun (b : Nat) => 2 * (b : ℚ) - 1))) = bytes ∧
    (unpackbits (packbits (binarize code))).map (fun (b : Nat) => 2 * (b : ℚ) - 1) = code := by
  constructor
  · rw [binarize_pm_bits (unpackbits bytes) (unpackbits_le_one bytes),
        packbits_unpackbits bytes hbytes]
  · rw [unpackbits_packbits (binarize code) (binarize_le_one code),
        binarize_length, h8]
    simp only [Nat.sub_zero, Nat.mod_self, List.replicate_zero, List.append_nil]
    exact pm_binarize code hpm

/-- Claim C3 witness: the amended round-trip evaluated at the concrete
packed code [240, 255] and the concrete 8-dimensional
plus-minus-one code [1,-1,1,1,-1,-1,1,-1]. -/
theorem C3_roundtrip_witness :
    packbits (binarize ((unpackbits [240, 255]).map (fun (b : Nat) => 2 * (b : ℚ) - 1)))
        = [240, 255] ∧
    (unpackbits (packbits (binarize [(1 : ℚ), -1, 1, 1, -1, -1, 1, -1]))).map
        (fun (b : Nat) => 2 * (b : ℚ) - 1) = [(1 : ℚ), -1, 1, 1, -1, -1, 1, -1] :=
  C3_roundtrip_amended [240, 255] (by decide)
    [(1 : ℚ), -1, 1, 1, -1, -1, 1, -1] (by decide) (by decide)

lemma binarize_getD (x : List ℚ) (i : Nat) (hi : i < x.length) :
    (binarize x).getD i 0 = if 0 < x.getD i 0 then 1 else 0 := by
  induction x generalizing i with
  | nil => simp at hi
  | cons a l ih =>
    cases i with
    | zero => simp [binarize]
    | succ n =>
      simp only [List.length_cons] at hi
      simp only [binarize, List.map_cons, List.getD_cons_succ]
      exact ih n (by omega)

/-- Claim C4: the binary code used for search, np.where(x > 0, 1, 0) of
the continuous query embedding at binary.py line 233, has bit i equal
to 1 exactly when dimension i is strictly positive; a dimension equal to
exactly 0 deterministically yields bit 0, and every bit is 0 or 1. -/
theorem C4_sign_threshold (x : List ℚ) (i : Nat) (hi : i < x.length) :
    ((binarize x).getD i 0 = 1 ↔ 0 < x.getD i 0) ∧
    (x.getD i 0 = 0 → (binarize x).getD i 0 = 0) ∧
    ((binarize x).getD i 0 = 0 ∨ (binarize x).getD i 0 = 1) := by
  rw [binarize_getD x i hi]
  by_cases h : 0 < x.getD i 0
  · rw [if_pos h]
    exact ⟨⟨fun _ => h, fun _ => rfl⟩,
      fun hz => absurd (hz ▸ h) (lt_irrefl 0), Or.inr rfl⟩
  · rw [if_neg h]
    exact ⟨⟨fun h01 => absurd h01 (by decide), fun hv => absurd hv h⟩,
      fun _ => rfl, Or.inl rfl⟩

/-- Claim C4 witness: the sign threshold evaluated at the concrete
embedding [0, 5, -3] and dimension 0, whose value is exactly 0. -/
theorem C4_sign_threshold_witness :
    (0 : Nat) < ([(0 : ℚ), 5, -3].length) ∧
    (((binarize [(0 : ℚ), 5, -3]).getD 0 0 = 1 ↔ 0 < [(0 : ℚ), 5, -3].getD 0 0) ∧
     ([(0 : ℚ), 5, -3].getD 0 0 = 0 → (binarize [(0 : ℚ), 5, -3]).getD 0 0 = 0) ∧
     ((binarize [(0 : ℚ), 5, -3]).getD 0 0 = 0 ∨ (binarize [(0 : ℚ), 5, -3]).getD 0 0 = 1)) :=
  ⟨by norm_num, C4_sign_threshold [(0 : ℚ), 5, -3] 0 (by norm_num)⟩

lemma mem_insertLe {α : Type} (le : α → α → Bool) (x y : α) :
    ∀ l : List α, y ∈ insertLe le x l ↔ y = x ∨ y ∈ l := by
  intro l
  induction l with
  | nil => simp [insertLe]
  | cons z zs ih =>
    simp only [insertLe]
    split
    · simp [List.mem_cons]
    · simp only [List.mem_cons, ih]
      tauto

lemma mem_sortLe {α : Type} (le : α → α → Bool) (y : α) :
    ∀ l : List α, y ∈ sortLe le l ↔ y ∈ l := by
  intro l
  induction l with
  | nil => simp [sortLe]
  | cons z zs ih =>
    simp only [sortLe, mem_insertLe, List.mem_cons, ih]

lemma hammingSearch_lt (codes : List (List Nat)) (q : List Nat) (k : Nat) :
    ∀ i ∈ hammingSearch codes q k, i < codes.length := by
  intro i hi
  have h₁ := List.mem_of_mem_take hi
  obtain ⟨p, hp, hpi⟩ := List.mem_map.mp h₁
  rw [mem_sortLe] at hp
  obtain ⟨j, hj, hji⟩ := List.mem_map.mp hp
  rw [List.mem_range] at hj
  subst hpi
  rw [← hji]
  exact hj

lemma reconstructAll_ok (codes : List (List Nat)) :
    ∀ ids : List Nat, (∀ i ∈ ids, i < codes.length) →
    reconstructAll codes ids =
      .ok (ids.map (fun i => reconstructRow (codes.getD i []))) := by
  intro ids h
  induction ids with
  | nil => rfl
  | cons i rest ih =>
    have hi : i < codes.length := h i (by simp)
    have hget : codes.get? i = some (codes.getD i []) := by
      rw [List.get?_eq_getElem?, List.getD_eq_getElem?_getD,
        List.getElem?_eq_getElem hi]
      rfl
    rw [reconstructAll, hget, ih (fun j hj => h j (by simp [hj]))]
    simp

/-- Claim C5: in stage 4 of retrieve, the re-ranking score of every
shortlisted candidate equals the dot product of the stored packed code
of that candidate, reconstructed and unpacked to a plus-minus-one vector
(bit 1 to +1, bit 0 to -1, via *2-1 at binary.py line 247), with the
dense query embedding exactly as the embedding step produced it
(binary.py lines 238-249). -/
theorem C5_rerank_scores (codes : List (List Nat)) (bq : List Nat) (k : Nat)
    (q : List ℚ) :
    ∃ rows, reconstructAll codes (hammingSearch codes bq k) = .ok rows ∧
      scoreRows (toPMRows rows) q =
        (hammingSearch codes bq k).map
          (fun i => listDot
            ((unpackbits (codes.getD i [])).map (fun (b : Nat) => 2 * (b : ℚ) - 1))
            q) := by
  refine ⟨_, reconstructAll_ok codes _ (hammingSearch_lt codes bq k), ?_⟩
  simp only [scoreRows, toPMRows, reconstructRow, List.map_map]
  refine List.map_congr_left fun i _ => ?_
  simp [Function.comp, List.map_map]
  congr 1

lemma clampCandidates_eq_min (c n : Nat) : clampCandidates c n = min c n := by
  unfold clampCandidates
  split_ifs <;> omega

lemma clampCandidates_idem (c n : Nat) :
    clampCandidates (clampCandidates c n) n = clampCandidates c n := by
  unfold clampCandidates
  split_ifs <;> omega

/-- A retriever over a document store with zero documents and an empty
faiss index; the embedding step returns a fixed 8-dimensional dense
embedding and a fixed continuous binary embedding for every query. -/
def emptyIndexRetriever : Retriever :=
  { documentStore := some { allDocuments := [], index := "document", faissIndexes := fun _ => [] },
    topK := 10,
    candidates := 1000,
    embed := fun _ => ([1, 0, -1, 2, 0, 1, -2, 3], [1, -1, 1, -1, 1, -1, 1, -1]) }

/-- Claim C1 (code bug): on an index and document store with 0 entries,
retrieve does not return an empty sequence without raising; the clamp at
binary.py lines 230-231 sets candidates to 0, the search returns no ids,
and np.vstack of the resulting empty list of reconstructed rows raises
ValueError (binary.py lines 238-240), for every top_k and query. -/
theorem C1_empty_index_raises (tk : Nat) (q : String) :
    (retrieve emptyIndexRetriever q none (some tk) none none).result
      = .error .vstackEmpty := by
  rfl

/-- Claim C6: with a document store present, the number of candidates
requested from the index by retrieve (the value stored back into the
candidates field and passed as k to the index search) is the minimum of
the configured candidates and the index entry count, whenever the faiss
index holds exactly one code per stored document. -/
theorem C6_candidate_clamp (r : Retriever) (store : DocStore) (q : String)
    (f : Option Filters) (tk : Option Nat) (hd : Option Headers)
    (hs : r.documentStore = some store)
    (hAlign : (store.faissIndexes store.index).length = store.allDocuments.length) :
    (retrieve r q f tk none hd).state.candidates
      = min r.candidates (store.faissIndexes store.index).length := by
  rcases r with ⟨ds, topK, cand, emb⟩
  dsimp only at hs ⊢
  subst hs
  dsimp only [retrieve]
  rw [hAlign]
  exact clampCandidates_eq_min _ _

/-- Claim C7: two consecutive calls to retrieve with the same query and
the same top_k, the second starting from the state the first call left
behind over the unmodified document store and index, return the same
value (list of documents or raised error).  The embedding step is
modelled as a pure function of the query (spec section 4.2), so equal
queries give equal embeddings; re-clamping the already clamped
candidates count is the identity. -/
theorem C7_retrieve_idempotent (r : Retriever) (q : String) (f : Option Filters)
    (tk : Option Nat) (idx : Option String) (hd : Option Headers) :
    (retrieve (retrieve r q f tk idx hd).state q f tk idx hd).result
      = (retrieve r q f tk idx hd).result := by
  rcases r with ⟨ds, topK, cand, emb⟩
  cases ds with
  | none => rfl
  | some store =>
    dsimp only [retrieve]
    rw [clampCandidates_idem]

/-- Claim C8: when the configured candidates value exceeds the number of
stored documents, retrieve overwrites the candidates field with the
document count (binary.py lines 230-231), and a later retrieve call,
even against a store that has grown to at least the old size, still
finds and keeps that reduced value. -/
theorem C8_candidates_mutation (r : Retriever) (store store₂ : DocStore)
    (q q₂ : String) (f f₂ : Option Filters) (tk tk₂ : Option Nat)
    (idx idx₂ : Option String) (hd hd₂ : Option Headers)
    (hs : r.documentStore = some store)
    (hgt : store.allDocuments.length < r.candidates)
    (hgrow : store.allDocuments.length ≤ store₂.allDocuments.length) :
    (retrieve r q f tk idx hd).state.candidates = store.allDocuments.length ∧
    (retrieve ({ (retrieve r q f tk idx hd).state with documentStore := some store₂ })
        q₂ f₂ tk₂ idx₂ hd₂).state.candidates = store.allDocuments.length := by
  rcases r with ⟨ds, topK, cand, emb⟩
  dsimp only at hs hgt
  subst hs
  have h₁ : clampCandidates cand store.allDocuments.length
      = store.allDocuments.length := by
    unfold clampCandidates
    rw [if_pos hgt]
  constructor
  · dsimp only [retrieve]
    exact h₁
  · dsimp only [retrieve]
    rw [h₁]
    unfold clampCandidates
    rw [if_neg (by omega)]

/-- Claim C9: a retriever constructed with document_store=None answers
every retrieve call, whatever the query, filters, top_k, index and
headers arguments, by logging an error and returning the empty list,
raising nothing (binary.py lines 222-224). -/
theorem C9_none_store (r : Retriever) (q : String) (f : Option Filters)
    (tk : Option Nat) (idx : Option String) (hd : Option Headers)
    (hr : r.documentStore = none) :
    (retrieve r q f tk idx hd).result = .ok [] ∧
    (retrieve r q f tk idx hd).errorLogs =
      ["Cannot perform retrieve() since DensePassageRetriever initialized with document_store=None"] := by
  rcases r with ⟨ds, topK, cand, emb⟩
  dsimp only at hr
  subst hr
  exact ⟨rfl, rfl⟩

/-- A retriever constructed with document_store=None. -/
def noneStoreRetriever : Retriever :=
  { documentStore := none,
    topK := 10,
    candidates := 1000,
    embed := fun _ => ([], []) }

/-- Claim C9 witness: the behaviour evaluated on a concrete retriever
whose document store is None. -/
theorem C9_none_store_witness :
    noneStoreRetriever.documentStore = none ∧
    ((retrieve noneStoreRetriever "query" none none none none).result = .ok [] ∧
     (retrieve noneStoreRetriever "query" none none none none).errorLogs =
      ["Cannot perform retrieve() since DensePassageRetriever initialized with document_store=None"]) :=
  ⟨rfl, C9_none_store _ "query" none none none none rfl⟩

/-- Claim C10: HashLayer.__init_subclass__ registers each new subclass
in cls.subclasses keyed by class name, but the HashLayer class body
defines no subclasses attribute; so defining any direct subclass that
does not itself supply one (and whose external bases, nn.Module and
object, supply none either) raises AttributeError at class definition
time, for every class name and any number of such external bases. -/
theorem C10_subclass_attribute_error (clsName : String) (k : Nat) :
    hashLayerSubclassesAttr = none ∧
    initSubclassHook clsName none (List.replicate k none)
      = .error (.attributeError "subclasses") := by
  refine ⟨rfl, ?_⟩
  induction k with
  | zero => rfl
  | succ m ih =>
    rw [List.replicate_succ]
    exact ih

/-- A store with exactly one document and one stored binary code. -/
def oneDocStore : DocStore :=
  { allDocuments := [{ docId := 0, content := "first" }],
    index := "document",
    faissIndexes := fun _ => [[240]] }

/-- A store with two documents and two stored binary codes. -/
def twoDocStore : DocStore :=
  { allDocuments := [{ docId := 0, content := "first" },
                     { docId := 1, content := "second" }],
    index := "document",
    faissIndexes := fun _ => [[240], [255]] }

/-- A retriever over oneDocStore with the default candidates of 1000. -/
def oneDocRetriever : Retriever :=
  { documentStore := some oneDocStore,
    topK := 10,
    candidates := 1000,
    embed := fun _ => ([1, 0, -1, 2, 0, 1, -2, 3], [1, -1, 1, -1, 1, -1, 1, -1]) }

/-- Claim C6 witness: the clamp evaluated on a store holding one
document and one code, with 1000 configured candidates. -/
theorem C6_candidate_clamp_witness :
    oneDocRetriever.documentStore = some oneDocStore ∧
    (oneDocStore.faissIndexes oneDocStore.index).length
      = oneDocStore.allDocuments.length ∧
    (retrieve oneDocRetriever "q" none none none none).state.candidates
      = min oneDocRetriever.candidates
          (oneDocStore.faissIndexes oneDocStore.index).length :=
  ⟨rfl, rfl, C6_candidate_clamp oneDocRetriever oneDocStore "q" none none none rfl rfl⟩

/-- Claim C8 witness: the permanent overwrite evaluated with 1000
configured candidates against a one-document store, then a second call
against a store grown to two documents. -/
theorem C8_candidates_mutation_witness :
    oneDocRetriever.documentStore = some oneDocStore ∧
    oneDocStore.allDocuments.length < oneDocRetriever.candidates ∧
    oneDocStore.allDocuments.length ≤ twoDocStore.allDocuments.length ∧
    ((retrieve oneDocRetriever "q" none none none none).state.candidates
        = oneDocStore.allDocuments.length ∧
     (retrieve ({ (retrieve oneDocRetriever "q" none none none none).state with
          documentStore := some twoDocStore }) "q2" none none none none).state.candidates
        = oneDocStore.allDocuments.length) :=
  ⟨rfl, by decide, by decide,
    C8_candidates_mutation oneDocRetriever oneDocStore twoDocStore
      "q" "q2" none none none none none none none none rfl (by decide) (by decide)⟩
